import Mathlib

/-!
# Verification of the squabble task/session coordination core

This file gives a shallow embedding, in Lean, of the parts of the squabble
repository that the verified properties concern, together with theorems
settling those properties.

Embedding conventions:

* TypeScript string-enum fields (`status`, `priority`) become inductive types.
* Optional fields (`field?: T`) become `Option`.
* JavaScript truthiness tests on strings (`!x`, `x || d`) are embedded
  faithfully: `undefined` and the empty string are falsy.
* Asynchronous functions are embedded as pure state-passing functions; the
  persisted workspace context (the `task-counter` entry) is threaded as an
  explicit `CounterState`.
* `Date` timestamps carried on modification-history entries are omitted:
  no verified property mentions them.
* JavaScript `Array.prototype.sort(cmp)` (stable, ordered by the comparator)
  is embedded as `List.insertionSort` with the relation `cmp a b <= 0`,
  which is a stable sort for that relation.
-/

namespace Squabble

/-- Task status, from `src/types.ts`: `'pending' | 'in-progress' | 'review' | 'done'`. -/
inductive Status where
  | pending
  | inProgress
  | review
  | done
  deriving DecidableEq, Repr

/-- Task priority, from `src/types.ts`: `'low' | 'medium' | 'high' | 'critical'`. -/
inductive Priority where
  | low
  | medium
  | high
  | critical
  deriving DecidableEq, Repr

/-- The kind tag of a `TaskModification`, from `src/types.ts`. -/
inductive ModType where
  | ADD
  | DELETE
  | MODIFY
  | BLOCK
  | SPLIT
  | MERGE
  deriving DecidableEq, Repr

/-- The loosely-typed `details: any` payload of a `TaskModification`, embedded as
a record of every field the `TaskManager` in `src/streaming/index.ts` reads from
it.  A field the caller did not supply is `none` (`undefined`). -/
structure ModDetails where
  title : String := ""
  description : Option String := none
  priority : Option Priority := none
  dependencies : Option (List String) := none
  requiresPlan : Option Bool := none
  newTitle : Option String := none
  newDescription : Option String := none
  newPriority : Option Priority := none
  status : Option Status := none
  blockedBy : Option String := none
  subtasks : List String := []
  deriving DecidableEq, Repr

/-- `TaskModification` from `src/types.ts` (the `timestamp: Date` field is omitted). -/
structure TaskModification where
  type : ModType
  taskId : Option String := none
  reason : String := ""
  details : ModDetails := {}
  deriving DecidableEq, Repr

/-- `Task` from `src/types.ts`, plus the `requiresPlan` field that the streaming
`TaskManager` writes and `claim_task` reads (left `undefined` by `splitTask`). -/
structure Task where
  id : String
  title : String
  description : Option String := none
  status : Status
  priority : Priority
  dependencies : List String
  blockedBy : Option String := none
  requiresPlan : Option Bool := none
  modificationHistory : List TaskModification := []
  deriving DecidableEq, Repr

/-- JavaScript truthiness of an optional string: `undefined` and `''` are falsy. -/
def strFalsy : Option String → Bool
  | none => true
  | some s => s = ""

/-- JavaScript `a || b` for an optional string default: falsy left operand
(`undefined` or `''`) yields the right operand. -/
def jsOrString (o : Option String) (d : String) : String :=
  match o with
  | none => d
  | some s => if s = "" then d else s

/-- Little-endian base-10 digit list of `n`, computed with a structural fuel
argument (`n` itself bounds the number of divisions needed). -/
def decDigitsAux : Nat → Nat → List Nat
  | 0, _ => []
  | fuel + 1, n => if n < 10 then [n] else n % 10 :: decDigitsAux fuel (n / 10)

/-- Little-endian base-10 digits of `n` (`[0]` for `0`). -/
def decDigits (n : Nat) : List Nat :=
  decDigitsAux (n + 1) n

/-- Decimal rendering of a natural number, as produced by a JavaScript template
literal such as `` `SQBL-${counter}` `` (most significant digit first). -/
def decimalString (n : Nat) : String :=
  String.mk ((decDigits n).reverse.map Nat.digitChar)

/-- Numeric value of a little-endian decimal digit list (used only to prove
`decimalString` injective). -/
def decVal (ds : List Nat) : Nat :=
  ds.foldr (fun d acc => d + 10 * acc) 0

/-- Numeric value of a decimal digit character (left inverse of
`Nat.digitChar` below 10; used only to prove `decimalString` injective). -/
def undigit (c : Char) : Nat :=
  c.toNat - 48

/-- The persisted workspace context consulted by `TaskManager.getNextTaskId`:
the `task-counter` entry, `none` when the key has never been written. -/
structure CounterState where
  taskCounter : Option Nat := none
  deriving DecidableEq, Repr

/-- `TaskManager.getNextTaskId` (`src/streaming/index.ts`): read the persisted
counter (a falsy or non-numeric value counts as `0`), increment it, persist it,
and return the formatted id `SQBL-N`. -/
def getNextTaskId (st : CounterState) : String × CounterState :=
  let counter := match st.taskCounter with
    | none => 0
    | some n => n
  let counter := counter + 1
  ("SQBL-" ++ decimalString counter, { taskCounter := some counter })

/-- `TaskManager.shouldRequirePlan` (`src/streaming/index.ts`): high and
critical priority tasks require plans by default.  Note the argument is the
*supplied* priority, before the `'medium'` default is applied. -/
def shouldRequirePlan (priority : Option Priority) : Bool :=
  priority = some .high || priority = some .critical

/-- The task record built by `TaskManager.addTask` for a fresh id. -/
def mkAddedTask (mod : TaskModification) (nextId : String) : Task :=
  { id := nextId
    title := mod.details.title
    description := mod.details.description
    status := .pending
    priority := mod.details.priority.getD .medium
    dependencies := mod.details.dependencies.getD []
    requiresPlan := some (match mod.details.requiresPlan with
      | some b => b
      | none => shouldRequirePlan mod.details.priority)
    modificationHistory := [mod] }

/-- `TaskManager.addTask` (`src/streaming/index.ts`): allocate the next
sequential id and append the new task. -/
def addTask (tasks : List Task) (st : CounterState) (mod : TaskModification) :
    List Task × CounterState :=
  let (nextId, st) := getNextTaskId st
  (tasks ++ [mkAddedTask mod nextId], st)

/-- The cascade applied to a surviving task when `deleteTask` removes one of its
dependencies: a synthetic history entry is appended and the deleted id is
stripped from the dependency list. -/
def cascadeDelete (mod : TaskModification) (tid : String) (t : Task) : Task :=
  if tid ∈ t.dependencies then
    { t with
      modificationHistory := t.modificationHistory ++
        [{ mod with reason := "Dependency " ++ tid ++ " was deleted" }]
      dependencies := t.dependencies.filter (fun d => d ≠ tid) }
  else t

/-- `TaskManager.deleteTask` (`src/streaming/index.ts`): remove the task and,
when it was present, update every task that depended on it. -/
def deleteTask (tasks : List Task) (mod : TaskModification) : List Task :=
  match mod.taskId with
  | none => tasks
  | some tid =>
    if tasks.any (fun t => t.id = tid) then
      (tasks.filter (fun t => t.id ≠ tid)).map (cascadeDelete mod tid)
    else tasks

/-- `TaskManager.modifyTask` (`src/streaming/index.ts`): overlay the supplied
partial fields; `||` defaults are JavaScript-truthy, the `requiresPlan` field is
compared against `undefined` explicitly. -/
def modifyTask (tasks : List Task) (mod : TaskModification) : List Task :=
  match mod.taskId with
  | none => tasks
  | some tid =>
    tasks.map fun task =>
      if task.id = tid then
        { task with
          description := match mod.details.newDescription with
            | none => task.description
            | some s => if s = "" then task.description else some s
          title := jsOrString mod.details.newTitle task.title
          priority := mod.details.newPriority.getD task.priority
          status := mod.details.status.getD task.status
          requiresPlan := match mod.details.requiresPlan with
            | some b => some b
            | none => task.requiresPlan
          modificationHistory := task.modificationHistory ++ [mod] }
      else task

/-- `TaskManager.blockTask` (`src/streaming/index.ts`). -/
def blockTask (tasks : List Task) (mod : TaskModification) : List Task :=
  match mod.taskId with
  | none => tasks
  | some tid =>
    tasks.map fun task =>
      if task.id = tid then
        { task with
          blockedBy := mod.details.blockedBy
          modificationHistory := task.modificationHistory ++ [mod] }
      else task

/-- The subtask built by `TaskManager.splitTask` at position `index` (0-based).
The id uses dot notation (`SQBL-1.1`, `SQBL-1.2`, ...) while a non-first
subtask's dependency list is written with a dash (`SQBL-1-1`, ...), exactly as
in the source. -/
def mkSubtask (mod : TaskModification) (tid : String) (orig : Task)
    (index : Nat) (title : String) : Task :=
  { id := tid ++ "." ++ decimalString (index + 1)
    title := title
    status := .pending
    priority := orig.priority
    dependencies := if index = 0 then orig.dependencies
      else [tid ++ "-" ++ decimalString index]
    modificationHistory := [{ mod with reason := "Split from " ++ orig.title }] }

/-- `TaskManager.splitTask` (`src/streaming/index.ts`): remove the original task
and append one subtask per supplied title. -/
def splitTask (tasks : List Task) (mod : TaskModification) : List Task :=
  match mod.taskId with
  | none => tasks
  | some tid =>
    match tasks.find? (fun t => t.id = tid) with
    | none => tasks
    | some orig =>
      let filteredTasks := tasks.filter (fun t => t.id ≠ tid)
      let subtasks := (mod.details.subtasks.enum).map
        (fun p => mkSubtask mod tid orig p.1 p.2)
      filteredTasks ++ subtasks

/-- `TaskManager.mergeTasks` (`src/streaming/index.ts`): reserved, returns the
list unchanged. -/
def mergeTasks (tasks : List Task) (_mod : TaskModification) : List Task :=
  tasks

/-- One step of `TaskManager.applyModifications`: dispatch on the modification
type.  Only `ADD` touches the persisted counter. -/
def applyOneMod (tasks : List Task) (st : CounterState) (mod : TaskModification) :
    List Task × CounterState :=
  match mod.type with
  | .ADD => addTask tasks st mod
  | .DELETE => (deleteTask tasks mod, st)
  | .MODIFY => (modifyTask tasks mod, st)
  | .BLOCK => (blockTask tasks mod, st)
  | .SPLIT => (splitTask tasks mod, st)
  | .MERGE => (mergeTasks tasks mod, st)

/-- `TaskManager.applyModifications` (`src/streaming/index.ts`): execute each
item in order against the in-memory list, then persist (persistence of the task
file itself has no further observable effect in this model). -/
def applyModifications (tasks : List Task) (st : CounterState) :
    List TaskModification → List Task × CounterState
  | [] => (tasks, st)
  | mod :: rest =>
    let (tasks, st) := applyOneMod tasks st mod
    applyModifications tasks st rest

/-- Numeric priority rank used by both eligible-task sorts:
`{ critical: 0, high: 1, medium: 2, low: 3 }`. -/
def priorityOrder : Priority → Nat
  | .critical => 0
  | .high => 1
  | .medium => 2
  | .low => 3

/-- The comparator `(a, b) => priorityOrder[a.priority] - priorityOrder[b.priority]`
of `TaskManager.getNextTasks`, as the relation `cmp a b <= 0`. -/
def priorityLE (a b : Task) : Prop :=
  priorityOrder a.priority ≤ priorityOrder b.priority

instance : DecidableRel priorityLE := fun a b =>
  inferInstanceAs (Decidable (priorityOrder a.priority ≤ priorityOrder b.priority))

instance : IsTotal Task priorityLE :=
  ⟨fun a b => Nat.le_total (priorityOrder a.priority) (priorityOrder b.priority)⟩

instance : IsTrans Task priorityLE :=
  ⟨fun _ _ _ hab hbc => Nat.le_trans hab hbc⟩

/-- The eligibility filter of `TaskManager.getNextTasks`: status is `pending`,
`blockedBy` is falsy, and every dependency resolves to a task whose status is
`done` (a dependency id with no matching task fails the check, because
`undefined?.status === 'done'` is false). -/
def eligibleTask (tasks : List Task) (t : Task) : Bool :=
  (t.status = Status.pending && strFalsy t.blockedBy) &&
    t.dependencies.all (fun dep =>
      match tasks.find? (fun dt => dt.id = dep) with
      | some dt => dt.status = Status.done
      | none => false)

/-- `TaskManager.getNextTasks` (`src/streaming/index.ts`): filter to unblocked
pending tasks with all dependencies done, stable-sort by priority rank, return
the first `count`. -/
def getNextTasks (tasks : List Task) (count : Nat) : List Task :=
  let availableTasks :=
    ((tasks.filter (eligibleTask tasks)).insertionSort priorityLE)
  availableTasks.take count

/-- Number of other tasks whose dependency list contains `a.id`, as computed by
the `get_next_task` tool (`src/tools/get-next-task.ts`) for its secondary sort
key. -/
def dependentsCount (tasks : List Task) (a : Task) : Nat :=
  (tasks.filter (fun t => a.id ∈ t.dependencies)).length

/-- Modelled from the claim's words (spec §4.1 `getNextEligible`): order by
priority rank (critical < high < medium < low) and, within equal priority, by
descending number of dependent tasks.  Stated only to compare against
`getNextTasks`; the embedding of the source is `getNextTasks` itself. -/
def claimLE (tasks : List Task) (a b : Task) : Prop :=
  priorityOrder a.priority < priorityOrder b.priority ∨
    (priorityOrder a.priority = priorityOrder b.priority ∧
      dependentsCount tasks b ≤ dependentsCount tasks a)

instance (tasks : List Task) : DecidableRel (claimLE tasks) := fun a b =>
  inferInstanceAs (Decidable (priorityOrder a.priority < priorityOrder b.priority ∨
    (priorityOrder a.priority = priorityOrder b.priority ∧
      dependentsCount tasks b ≤ dependentsCount tasks a)))

/-- Modelled from the claim's words: the next-eligible query as the claim states
it — same filters as `getNextTasks`, but sorted with the dependents tie-break. -/
def claimNextTasks (tasks : List Task) (count : Nat) : List Task :=
  ((tasks.filter (eligibleTask tasks)).insertionSort (claimLE tasks)).take count

/-- The value of the persisted `task-counter` as `getNextTaskId` reads it
(missing, falsy or non-numeric values count as `0`). -/
def ctrRead (st : CounterState) : Nat :=
  match st.taskCounter with
  | none => 0
  | some n => n

/-- `countAdds mods` is the number of `ADD` items in a batch. -/
def countAdds (mods : List TaskModification) : Nat :=
  (mods.filter (fun m => m.type = ModType.ADD)).length

/-- `applyModifications`, instrumented to also record the id string allocated by
each `ADD` item (the first component of the `getNextTaskId` call that
`addTask` performs).  The task-list/counter result is proved to agree with
`applyModifications` itself. -/
def applyModsAlloc (tasks : List Task) (st : CounterState) :
    List TaskModification → (List Task × CounterState) × List String
  | [] => ((tasks, st), [])
  | mod :: rest =>
    let step := applyOneMod tasks st mod
    let out := applyModsAlloc step.1 step.2 rest
    (out.1, (if mod.type = ModType.ADD then [(getNextTaskId st).1] else []) ++ out.2)

/-- A sequence of `applyModifications` batches, threading the persisted state. -/
def applyBatches (tasks : List Task) (st : CounterState) :
    List (List TaskModification) → List Task × CounterState
  | [] => (tasks, st)
  | batch :: rest =>
    let step := applyModifications tasks st batch
    applyBatches step.1 step.2 rest

/-- A sequence of batches, recording every id allocated by an `ADD`. -/
def applyBatchesAlloc (tasks : List Task) (st : CounterState) :
    List (List TaskModification) → (List Task × CounterState) × List String
  | [] => ((tasks, st), [])
  | batch :: rest =>
    let step := applyModsAlloc tasks st batch
    let out := applyBatchesAlloc step.1.1 step.1.2 rest
    (out.1, step.2 ++ out.2)

/-- The id string `SQBL-N` issued for counter value `N`. -/
def mkSqblId (n : Nat) : String :=
  "SQBL-" ++ decimalString n

/-! ## CircularBuffer (`src/streaming/circular-buffer.ts`)

The backing array of `T | undefined` slots becomes a `List (Option α)`; the
TypeScript non-null assertions in `toArray` correspond to the fact (provable
for every reachable buffer) that every slot read there is `some`. -/

/-- The state of a `CircularBuffer<T>`. -/
structure CircularBuffer (α : Type) where
  buffer : List (Option α)
  writeIndex : Nat
  size : Nat
  capacity : Nat
  deriving DecidableEq, Repr

/-- The constructor body: `capacity <= 0` is a construction-time error,
otherwise all slots start empty. -/
def CircularBuffer.make (α : Type) (capacity : Nat) :
    Except String (CircularBuffer α) :=
  if capacity ≤ 0 then .error "Buffer capacity must be positive"
  else .ok { buffer := List.replicate capacity none
             writeIndex := 0
             size := 0
             capacity := capacity }

/-- A freshly constructed buffer of capacity `c`. -/
def CircularBuffer.empty (α : Type) (c : Nat) : CircularBuffer α :=
  { buffer := List.replicate c none, writeIndex := 0, size := 0, capacity := c }

/-- `CircularBuffer.push`: write at `writeIndex`, advance it modulo the
capacity, and grow `size` until the buffer is full. -/
def CircularBuffer.push (b : CircularBuffer α) (item : α) : CircularBuffer α :=
  { buffer := b.buffer.set b.writeIndex (some item)
    writeIndex := (b.writeIndex + 1) % b.capacity
    size := if b.size < b.capacity then b.size + 1 else b.size
    capacity := b.capacity }

/-- `CircularBuffer.toArray`: chronological read; when full, start from the
oldest slot (`writeIndex` is the next write position). -/
def CircularBuffer.toArray (b : CircularBuffer α) : List (Option α) :=
  if b.size = 0 then []
  else if b.size < b.capacity then
    (List.range b.size).map (fun i => b.buffer.getD i none)
  else
    (List.range b.capacity).map
      (fun i => b.buffer.getD ((b.writeIndex + i) % b.capacity) none)

/-- JavaScript `array.slice(-count)` for a natural `count`: `-0` is `0`, so
`count = 0` yields the whole array, and otherwise the last
`min count length` elements are returned. -/
def jsSliceNeg (l : List α) (count : Nat) : List α :=
  if count = 0 then l else l.drop (l.length - count)

/-- `CircularBuffer.getRecent`: `this.toArray().slice(-count)`. -/
def CircularBuffer.getRecent (b : CircularBuffer α) (count : Nat) :
    List (Option α) :=
  jsSliceNeg b.toArray count

/-- `CircularBuffer.clear`. -/
def CircularBuffer.clear (b : CircularBuffer α) : CircularBuffer α :=
  { buffer := List.replicate b.capacity none
    writeIndex := 0
    size := 0
    capacity := b.capacity }

/-- `CircularBuffer.getSize`. -/
def CircularBuffer.getSize (b : CircularBuffer α) : Nat := b.size

/-- `CircularBuffer.isFull`. -/
def CircularBuffer.isFull (b : CircularBuffer α) : Bool := b.size = b.capacity

/-- Push a whole sequence of items, oldest first. -/
def CircularBuffer.pushAll (b : CircularBuffer α) (xs : List α) :
    CircularBuffer α :=
  xs.foldl CircularBuffer.push b

/-- The state invariant of every buffer reachable from `CircularBuffer.empty`
by `push`es: the backing array has exactly `capacity` slots, `size` never
exceeds it, the write position is in range, and while the buffer is not yet
full the write position equals `size`. -/
def bufInv (C : Nat) (b : CircularBuffer α) : Prop :=
  b.capacity = C ∧ b.buffer.length = C ∧ b.size ≤ C ∧ b.writeIndex < C ∧
    (b.size < C → b.writeIndex = b.size)

/-! ## Activity-log rotation (`src/streaming/activity-logger.ts`) -/

/-- The event-type tag of a `PMActivityEvent`
(`src/pm/streaming-session-manager.ts`). -/
inductive PMEventType where
  | session_start
  | tool_use
  | tool_result
  | pm_message
  | session_end
  | error
  deriving DecidableEq, Repr

/-- `PMActivityEvent`: the structured-log record.  The `timestamp` string and
the untyped `args` payload are omitted (no verified property reads them). -/
structure PMActivityEvent where
  type : PMEventType
  sessionId : Option String := none
  tool : Option String := none
  result : Option String := none
  message : Option String := none
  id : Option String := none
  deriving DecidableEq, Repr

/-- The rotation grouping key: `event.sessionId || 'unknown'` (a missing or
empty session id is falsy). -/
def sessionKey (e : PMActivityEvent) : String :=
  jsOrString e.sessionId "unknown"

/-- `MAX_SESSIONS_TO_KEEP` from the source. -/
def maxSessionsToKeep : Nat := 5

/-- One step of `parseSessionsFromFile`'s grouping loop: append the event to
its session's bucket, creating the bucket at the end on first sight. -/
def insertEvent (gs : List (String × List PMActivityEvent)) (k : String)
    (e : PMActivityEvent) : List (String × List PMActivityEvent) :=
  if gs.any (fun g => g.1 = k) then
    gs.map (fun g => if g.1 = k then (g.1, g.2 ++ [e]) else g)
  else gs ++ [(k, [e])]

/-- `ActivityLogger.parseSessionsFromFile`: group the structured log's lines by
session key, in the order the sessions were first seen.  A line is embedded as
`Option PMActivityEvent`: `none` for a blank or unparsable line (skipped). -/
def parseSessionsFromFile (lines : List (Option PMActivityEvent)) :
    List (String × List PMActivityEvent) :=
  lines.foldl
    (fun gs l =>
      match l with
      | none => gs
      | some e => insertEvent gs (sessionKey e) e)
    []

/-- The event sequence of the rewritten structured log produced by
`ActivityLogger.rotateLogs` (the temp-file-then-rename I/O is modelled as
producing these new contents): keep the last `MAX_SESSIONS_TO_KEEP` sessions
(`sessions.slice(-MAX_SESSIONS_TO_KEEP)`) and write their events in order;
with no sessions at all, both files are truncated. -/
def rotateLogs (lines : List (Option PMActivityEvent)) : List PMActivityEvent :=
  let sessions := parseSessionsFromFile lines
  let sessionsToKeep := sessions.drop (sessions.length - maxSessionsToKeep)
  if sessionsToKeep.isEmpty then []
  else (sessionsToKeep.map Prod.snd).flatten

/-! ## Review classification (`src/pm/review-formatter.ts`)

The approval-detection regexes contain no anchors or character classes, only
alternations of literals with optional single characters (`needs? changes?`),
so `regex.test(text)` is equivalent to "some literal expansion occurs as a
substring of `text`".  A trailing optional character never affects whether a
match exists, so only the expansions of *internal* optional characters are
listed. -/

/-- The classification produced by `ReviewFormatter.detectApprovalStatus`. -/
inductive Approval where
  | approved
  | changesRequested
  | needsDiscussion
  deriving DecidableEq, Repr

/-- `reviewText.toLowerCase()`, as a character list. -/
def lowerChars (s : String) : List Char :=
  s.toList.map Char.toLower

/-- The strong-approval regex
`/approved|lgtm|looks good to me|ready to merge|no changes needed|implementation is approved/`. -/
def approvalIndicators : List (List Char) :=
  ["approved", "lgtm", "looks good to me", "ready to merge",
   "no changes needed", "implementation is approved"].map String.toList

/-- The guard regex `/not approved|needs changes|requires? modification/`
conjoined (negated) with the approval test. -/
def approvalGuard : List (List Char) :=
  ["not approved", "needs changes", "require modification",
   "requires modification"].map String.toList

/-- The changes-required regex
`/needs? changes?|requires? modification|must fix|not approved|requested changes/`. -/
def rejectionIndicators : List (List Char) :=
  ["need change", "needs change", "require modification",
   "requires modification", "must fix", "not approved",
   "requested changes"].map String.toList

/-- The second changes-required regex `/required changes:/`. -/
def requiredChangesIndicator : List Char :=
  "required changes:".toList

/-- `occursIn p t` holds when the character sequence `p` occurs contiguously
inside `t` (the substring semantics of `regex.test` for a literal pattern). -/
def occursIn (p : List Char) : List Char → Bool
  | [] => p.isEmpty
  | c :: rest => p.isPrefixOf (c :: rest) || occursIn p rest

/-- Substring test for one of a list of literal patterns. -/
def matchesAny (pats : List (List Char)) (text : List Char) : Bool :=
  pats.any (fun p => occursIn p text)

/-- `ReviewFormatter.detectApprovalStatus`: lowercase the text, return
`approved` on a strong approval indicator not contradicted by a guard
indicator, `changes-requested` on a rejection indicator, and default to
`needs-discussion`. -/
def detectApprovalStatus (reviewText : String) : Approval :=
  let text := lowerChars reviewText
  if matchesAny approvalIndicators text && !matchesAny approvalGuard text then
    .approved
  else if matchesAny rejectionIndicators text
      || occursIn requiredChangesIndicator text then
    .changesRequested
  else
    .needsDiscussion

/-! ## The blocking plan-review wait of `claim_task` (`src/tools/claim-task.ts`)

The listener accumulates `pm_message` text for the started session until that
session's `session_end` event; `Promise.race` against the two-minute timer is
embedded by abstracting which promise settles first: the event sequence the
listener has consumed, plus a flag saying whether the timer won. -/

/-- The temporary subscriber of the plan-review wait: accumulate matching
`pm_message` events (whose `message` is truthy) and resolve with the
accumulated text at the session's `session_end`; `none` if no terminal event
is ever seen (the promise stays pending). -/
def collectPlanReview (sid : String) (acc : String) :
    List PMActivityEvent → Option String
  | [] => none
  | e :: rest =>
    if e.sessionId = some sid then
      if e.type = PMEventType.pm_message && !strFalsy e.message then
        collectPlanReview sid (acc ++ e.message.getD "") rest
      else if e.type = PMEventType.session_end then
        some acc
      else
        collectPlanReview sid acc rest
    else
      collectPlanReview sid acc rest

/-- The placeholder text resolved when the two-minute plan-review timer fires
first. -/
def pmTimeoutMessage : String :=
  "PM response timed out but session continues. The PM is still working - check the activity log for ongoing updates."

/-- What the caller observes from the plan-review wait. -/
structure PlanReviewOutcome where
  response : String
  listenerRemoved : Bool
  sessionStopped : Bool
  deriving DecidableEq, Repr

/-- The plan-review wait of `claim_task`: if the timer wins the race, resolve
with the placeholder, leave the temporary listener subscribed (the source
comment: do NOT remove event listeners) and leave the session running; if the
listener resolves first, it unsubscribed itself on `session_end`.  No path
stops the session.  `none` models a race that never settles (impossible in the
source, where the timer always fires). -/
def planReviewWait (sid : String) (events : List PMActivityEvent)
    (timerWon : Bool) : Option PlanReviewOutcome :=
  if timerWon then
    some { response := pmTimeoutMessage
           listenerRemoved := false
           sessionStopped := false }
  else
    match collectPlanReview sid "" events with
    | some acc =>
      some { response := acc, listenerRemoved := true, sessionStopped := false }
    | none => none

/-! ## The submit-for-review flow (`src/tools/submit-for-review.ts`)

The flow's effects on the task store are `applyModifications` calls; every
other awaited step can throw but does not change tasks.  Exceptions are
embedded by a parameter naming the point (if any) at which a step throws;
the `catch` block then applies the rollback modification from whatever task
state the flow had reached. -/

/-- The points at which an awaited step of the submit flow can throw, relative
to the task-store updates: before the review-status update (e.g.
`saveReviewRequest`), between it and the final status update (e.g.
`consultPM`, `parseReview`, `saveReview`, `savePMFeedback`), or after the
final status update (e.g. the PM-suggested `applyModifications` batch). -/
inductive ThrowPoint where
  | beforeReview
  | afterConsult
  | afterFinal
  deriving DecidableEq, Repr

/-- The environment of one submit flow: where (if anywhere) an exception is
thrown, the parsed approval of the PM response, and the titles of the tasks
`parsePMResponse` suggests adding (it only ever emits `ADD` modifications). -/
structure SubmitEnv where
  throwAt : Option ThrowPoint := none
  pmApproval : Approval := .needsDiscussion
  pmSuggestedTitles : List String := []
  deriving DecidableEq, Repr

/-- The status-to-review modification submitted before consulting the PM. -/
def reviewMod (taskId : String) : TaskModification :=
  { type := .MODIFY, taskId := some taskId
    reason := "Submitted for PM review"
    details := { status := some .review } }

/-- The status-to-done modification applied on PM approval. -/
def approveMod (taskId : String) : TaskModification :=
  { type := .MODIFY, taskId := some taskId
    reason := "PM approved implementation"
    details := { status := some .done } }

/-- The status-to-in-progress modification applied when the PM requests
changes. -/
def changesMod (taskId : String) : TaskModification :=
  { type := .MODIFY, taskId := some taskId
    reason := "PM requested changes"
    details := { status := some .inProgress } }

/-- The rollback modification applied by the `catch` block. -/
def rollbackMod (taskId : String) : TaskModification :=
  { type := .MODIFY, taskId := some taskId
    reason := "Review failed with error"
    details := { status := some .inProgress } }

/-- An `ADD` modification as built by `parsePMResponse` for a suggested task. -/
def pmSuggestedMod (title : String) : TaskModification :=
  { type := .ADD
    reason := "PM suggested during review"
    details := { title := title, priority := some .medium } }

/-- The caller-visible outcome of the submit flow. -/
inductive SubmitOutcome where
  | notFound
  | wrongStatus
  | approvedDone
  | changesRequested
  | errored
  deriving DecidableEq, Repr

/-- The `submit_for_review` flow (`src/tools/submit-for-review.ts`): validate
the task, set it to `review`, consult the PM, then set it to `done` (plus any
PM-suggested `ADD`s) or back to `in-progress`; any exception is caught and the
task is set back to `in-progress` before the error is reported. -/
def submitForReview (tasks : List Task) (st : CounterState) (taskId : String)
    (env : SubmitEnv) : (List Task × CounterState) × SubmitOutcome :=
  match tasks.find? (fun t => t.id = taskId) with
  | none => ((tasks, st), .notFound)
  | some task =>
    if task.status ≠ Status.inProgress then ((tasks, st), .wrongStatus)
    else if env.throwAt = some ThrowPoint.beforeReview then
      (applyModifications tasks st [rollbackMod taskId], .errored)
    else
      let s1 := applyModifications tasks st [reviewMod taskId]
      if env.throwAt = some ThrowPoint.afterConsult then
        (applyModifications s1.1 s1.2 [rollbackMod taskId], .errored)
      else
        let s2 :=
          if env.pmApproval = Approval.approved then
            let s2a := applyModifications s1.1 s1.2 [approveMod taskId]
            applyModifications s2a.1 s2a.2
              (env.pmSuggestedTitles.map pmSuggestedMod)
          else
            applyModifications s1.1 s1.2 [changesMod taskId]
        if env.throwAt = some ThrowPoint.afterFinal then
          (applyModifications s2.1 s2.2 [rollbackMod taskId], .errored)
        else
          (s2, if env.pmApproval = Approval.approved then .approvedDone
               else .changesRequested)

/-- C1 example: two eligible medium-priority tasks, where the second one has a
(pending) dependent and the first does not. -/
def cxTasks : List Task :=
  [{ id := "SQBL-1", title := "A", status := .pending, priority := .medium,
     dependencies := [] },
   { id := "SQBL-2", title := "B", status := .pending, priority := .medium,
     dependencies := [] },
   { id := "SQBL-3", title := "C", status := .pending, priority := .medium,
     dependencies := ["SQBL-2"] }]

/-- C1 example: a pending task whose `blockedBy` is the empty string (a falsy
value, so the `!t.blockedBy` filter passes it). -/
def cxBlockedTask : Task :=
  { id := "SQBL-9", title := "D", status := .pending, priority := .medium,
    dependencies := [], blockedBy := some "" }

/-- C1 example: the head task of `cxTasks`. -/
def cxHeadTask : Task :=
  { id := "SQBL-1", title := "A", status := .pending, priority := .medium,
    dependencies := [] }

/-- C4 example: a one-event session for key `k`. -/
def c4Ev (k : String) : PMActivityEvent :=
  { type := .pm_message, sessionId := some k, message := some "m" }

/-- C4 example: a structured log holding six one-event sessions (and one
unparsable line), so rotation must drop the oldest session. -/
def c4Lines : List (Option PMActivityEvent) :=
  [some (c4Ev "s1"), none, some (c4Ev "s2"), some (c4Ev "s3"),
   some (c4Ev "s4"), some (c4Ev "s5"), some (c4Ev "s6")]

/-! # Theorems -/

/-- C7: for every reviewer response text matching none of the approval
indicators and none of the rejection indicators (including the separate
`required changes:` pattern), `detectApprovalStatus` returns
`needs-discussion` — in particular, such a text is never classified
`approved`. -/
theorem detectApprovalStatus_default_needsDiscussion (s : String)
    (hA : matchesAny approvalIndicators (lowerChars s) = false)
    (hR : matchesAny rejectionIndicators (lowerChars s) = false)
    (hQ : occursIn requiredChangesIndicator (lowerChars s) = false) :
    detectApprovalStatus s = Approval.needsDiscussion ∧
      detectApprovalStatus s ≠ Approval.approved := by
  refine ⟨?_, ?_⟩ <;> simp [detectApprovalStatus, hA, hR, hQ]

/-- Witness for C7 at a concrete ambiguous response. -/
theorem detectApprovalStatus_default_needsDiscussion_witness :
    matchesAny approvalIndicators (lowerChars "I would like to see the benchmarks first") = false ∧
    matchesAny rejectionIndicators (lowerChars "I would like to see the benchmarks first") = false ∧
    occursIn requiredChangesIndicator (lowerChars "I would like to see the benchmarks first") = false ∧
    detectApprovalStatus "I would like to see the benchmarks first" = Approval.needsDiscussion :=
  ⟨rfl, rfl, rfl,
    (detectApprovalStatus_default_needsDiscussion
      "I would like to see the benchmarks first" rfl rfl rfl).1⟩

/-- C6: when the two-minute plan-review timer wins the race against the
session's terminal event, `claim_task`'s wait resolves with the
"session may still be running" placeholder, the temporary subscriber is left
registered (`listenerRemoved = false`), and the session is not terminated
(`sessionStopped = false`), so its events keep flowing to the log. -/
theorem planReviewWait_timeout_keeps_session (sid : String)
    (events : List PMActivityEvent) :
    planReviewWait sid events true =
      some { response := pmTimeoutMessage
             listenerRemoved := false
             sessionStopped := false } := by
  rfl

/-- C9: `addTask` appends exactly the record built by `mkAddedTask`; when the
caller supplies no priority the new task's priority is `medium`, and when the
caller supplies no `requiresPlan` the stored flag is `true` exactly for a
supplied priority of `high` or `critical` (hence `false` when the priority was
omitted). -/
theorem addTask_defaults (tasks : List Task) (st : CounterState)
    (mod : TaskModification) :
    (addTask tasks st mod).1 = tasks ++ [mkAddedTask mod (getNextTaskId st).1] ∧
    (mod.details.priority = none →
      (mkAddedTask mod (getNextTaskId st).1).priority = Priority.medium) ∧
    (mod.details.requiresPlan = none →
      ((mkAddedTask mod (getNextTaskId st).1).requiresPlan = some true ↔
        (mod.details.priority = some Priority.high ∨
          mod.details.priority = some Priority.critical))) := by
  refine ⟨rfl, fun h => ?_, fun h => ?_⟩
  · simp [mkAddedTask, h]
  · simp [mkAddedTask, h, shouldRequirePlan, Bool.or_eq_true, decide_eq_true_eq]

/-- Witness for C9: an `ADD` with neither priority nor `requiresPlan` supplied
yields priority `medium` and a `requiresPlan` of `false`. -/
theorem addTask_defaults_witness :
    (mkAddedTask { type := ModType.ADD, details := { title := "write docs" } }
        (getNextTaskId {}).1).priority = Priority.medium ∧
    (mkAddedTask { type := ModType.ADD, details := { title := "write docs" } }
        (getNextTaskId {}).1).requiresPlan ≠ some true := by
  have h := addTask_defaults []
    {} { type := ModType.ADD, details := { title := "write docs" } }
  refine ⟨h.2.1 rfl, fun hc => ?_⟩
  rcases (h.2.2 rfl).mp hc with h1 | h1 <;> cases h1

/-- C2 (the code bug): splitting `SQBL-1` into two subtasks names the subtasks
`SQBL-1.1` and `SQBL-1.2` (dot notation) but records the second subtask's
dependency as `SQBL-1-1` (dash notation), so the dependency chain does not
reference the predecessor subtask — or any task that exists. -/
theorem splitTask_chain_uses_dash_ids :
    (splitTask
        [{ id := "SQBL-1", title := "Parent", status := Status.pending,
           priority := Priority.high, dependencies := ["SQBL-0"] }]
        { type := ModType.SPLIT, taskId := some "SQBL-1",
          details := { subtasks := ["part one", "part two"] } }).map
        (fun t => (t.id, t.dependencies)) =
      [("SQBL-1.1", ["SQBL-0"]), ("SQBL-1.2", ["SQBL-1-1"])] ∧
    ("SQBL-1-1" ∉ (splitTask
        [{ id := "SQBL-1", title := "Parent", status := Status.pending,
           priority := Priority.high, dependencies := ["SQBL-0"] }]
        { type := ModType.SPLIT, taskId := some "SQBL-1",
          details := { subtasks := ["part one", "part two"] } }).map Task.id) := by
  refine ⟨by rfl, by decide⟩

/-- C1 is false of `TaskManager.getNextTasks` as stated: (i) with two eligible
equal-priority tasks of which only the second unblocks other work, the claim's
ordering (descending dependents within equal priority) puts `SQBL-2` first,
but `getNextTasks` sorts by priority alone (stable), returning `SQBL-1` first
— the dependents tie-break lives only in the `get_next_task` tool; and (ii) a
task carrying the (falsy) `blockedBy` value `""` is still returned. -/
theorem getNextTasks_differs_from_claim_order :
    (getNextTasks cxTasks 2).map Task.id = ["SQBL-1", "SQBL-2"] ∧
    (claimNextTasks cxTasks 2).map Task.id = ["SQBL-2", "SQBL-1"] ∧
    getNextTasks cxTasks 2 ≠ claimNextTasks cxTasks 2 ∧
    getNextTasks [cxBlockedTask] 1 = [cxBlockedTask] ∧
    cxBlockedTask.blockedBy ≠ none := by
  refine ⟨by decide, by decide, by decide, by decide, by decide⟩

/-- C1 as amended: every task returned by `getNextTasks` has status `pending`,
a falsy (`undefined` or empty) `blockedBy`, and only dependencies that resolve
to `done` tasks; the returned list is sorted by priority rank
(critical < high < medium < low, ties keeping list order, with no dependents
tie-break); and it consists of the first `count` elements of the sorted
eligible list. -/
theorem getNextTasks_filter_sorted (tasks : List Task) (count : Nat) :
    (∀ t ∈ getNextTasks tasks count,
        t.status = Status.pending ∧
        strFalsy t.blockedBy = true ∧
        ∀ dep ∈ t.dependencies, ∃ dt,
          tasks.find? (fun u => u.id = dep) = some dt ∧
            dt.status = Status.done) ∧
    (getNextTasks tasks count).Sorted priorityLE ∧
    (getNextTasks tasks count).length =
      min count (tasks.filter (eligibleTask tasks)).length ∧
    getNextTasks tasks count =
      ((tasks.filter (eligibleTask tasks)).insertionSort priorityLE).take count := by
  refine ⟨?_, ?_, ?_, rfl⟩
  · intro t ht
    have ht' : t ∈ (tasks.filter (eligibleTask tasks)).insertionSort priorityLE :=
      List.mem_of_mem_take ht
    have ht'' : t ∈ tasks.filter (eligibleTask tasks) :=
      (List.perm_insertionSort priorityLE _).subset ht'
    have helig : eligibleTask tasks t = true := List.of_mem_filter ht''
    unfold eligibleTask at helig
    simp only [Bool.and_eq_true, List.all_eq_true, decide_eq_true_eq] at helig
    refine ⟨helig.1.1, helig.1.2, fun dep hdep => ?_⟩
    have hd := helig.2 dep hdep
    cases hfind : tasks.find? (fun u => u.id = dep) with
    | none => rw [hfind] at hd; exact absurd hd (by simp)
    | some dt =>
      rw [hfind] at hd
      exact ⟨dt, rfl, by simpa using hd⟩
  · exact List.Pairwise.sublist (List.take_sublist _ _)
      (List.sorted_insertionSort priorityLE _)
  · simp [getNextTasks]

/-- Witness for C1's amended statement at the concrete example list. -/
theorem getNextTasks_filter_sorted_witness :
    cxHeadTask ∈ getNextTasks cxTasks 2 ∧
    cxHeadTask.status = Status.pending ∧
    (getNextTasks cxTasks 2).Sorted priorityLE := by
  have hmem : cxHeadTask ∈ getNextTasks cxTasks 2 := by decide
  exact ⟨hmem, ((getNextTasks_filter_sorted cxTasks 2).1 cxHeadTask hmem).1,
    (getNextTasks_filter_sorted cxTasks 2).2.1⟩

theorem decDigitsAux_val (fuel : Nat) :
    ∀ n, n < fuel → decVal (decDigitsAux fuel n) = n := by
  induction fuel with
  | zero => intro n h; omega
  | succ f ih =>
    intro n h
    unfold decDigitsAux
    by_cases h10 : n < 10
    · simp [h10, decVal]
    · have hd : n / 10 < f := by
        have h1 : n / 10 < n := Nat.div_lt_self (by omega) (by omega)
        omega
      have hrec := ih (n / 10) hd
      simp only [h10, if_false, decVal, List.foldr_cons]
      unfold decVal at hrec
      rw [hrec]
      omega

theorem decDigits_val (n : Nat) : decVal (decDigits n) = n :=
  decDigitsAux_val (n + 1) n (Nat.lt_succ_self n)

theorem decDigitsAux_lt (fuel : Nat) :
    ∀ n d, d ∈ decDigitsAux fuel n → d < 10 := by
  induction fuel with
  | zero => intro n d hd; simp [decDigitsAux] at hd
  | succ f ih =>
    intro n d hd
    unfold decDigitsAux at hd
    by_cases h10 : n < 10
    · simp [h10] at hd; omega
    · simp [h10] at hd
      rcases hd with h | h
      · omega
      · exact ih _ _ h

theorem undigit_digitChar : ∀ d, d < 10 → undigit (Nat.digitChar d) = d := by
  decide

theorem decimalString_inj {n m : Nat}
    (h : decimalString n = decimalString m) : n = m := by
  unfold decimalString at h
  have h1 : (decDigits n).reverse.map Nat.digitChar =
      (decDigits m).reverse.map Nat.digitChar := by
    injection h
  have h2 : (decDigits n).map Nat.digitChar = (decDigits m).map Nat.digitChar := by
    have := congrArg List.reverse h1
    simpa [List.map_reverse] using this
  have h4 := congrArg (List.map undigit) h2
  rw [List.map_map, List.map_map] at h4
  have e1 : (decDigits n).map (undigit ∘ Nat.digitChar) = decDigits n := by
    conv_rhs => rw [← List.map_id (decDigits n)]
    refine List.map_congr_left fun d hd => ?_
    exact undigit_digitChar d (decDigitsAux_lt _ _ _ hd)
  have e2 : (decDigits m).map (undigit ∘ Nat.digitChar) = decDigits m := by
    conv_rhs => rw [← List.map_id (decDigits m)]
    refine List.map_congr_left fun d hd => ?_
    exact undigit_digitChar d (decDigitsAux_lt _ _ _ hd)
  rw [e1, e2] at h4
  have := congrArg decVal h4
  rwa [decDigits_val, decDigits_val] at this

theorem mkSqblId_inj : Function.Injective mkSqblId := by
  intro n m h
  unfold mkSqblId at h
  have h' : ("SQBL-" : String).data ++ (decimalString n).data =
      ("SQBL-" : String).data ++ (decimalString m).data := by
    have := congrArg String.data h
    simpa [String.data_append] using this
  exact decimalString_inj (String.ext (List.append_cancel_left h'))

theorem getNextTaskId_eq (st : CounterState) :
    getNextTaskId st =
      (mkSqblId (ctrRead st + 1), { taskCounter := some (ctrRead st + 1) }) := by
  cases st with
  | mk c => cases c <;> rfl

theorem addTask_eq (tasks : List Task) (st : CounterState)
    (mod : TaskModification) :
    addTask tasks st mod =
      (tasks ++ [mkAddedTask mod (mkSqblId (ctrRead st + 1))],
        { taskCounter := some (ctrRead st + 1) }) := by
  unfold addTask
  rw [getNextTaskId_eq]

theorem applyOneMod_snd_of_ne (tasks : List Task) (st : CounterState)
    (mod : TaskModification) (h : mod.type ≠ ModType.ADD) :
    (applyOneMod tasks st mod).2 = st := by
  cases hm : mod.type
  case ADD => exact absurd hm h
  all_goals simp [applyOneMod, hm]

theorem countAdds_cons (mod : TaskModification) (rest : List TaskModification) :
    countAdds (mod :: rest) =
      (if mod.type = ModType.ADD then 1 else 0) + countAdds rest := by
  by_cases h : mod.type = ModType.ADD <;>
    simp [countAdds, List.filter_cons, h, Nat.add_comm]

theorem countAdds_append (a b : List TaskModification) :
    countAdds (a ++ b) = countAdds a + countAdds b := by
  simp [countAdds, List.filter_append]

theorem applyModsAlloc_spec (mods : List TaskModification) :
    ∀ (tasks : List Task) (st : CounterState),
    (applyModsAlloc tasks st mods).2 =
      (List.range' (ctrRead st + 1) (countAdds mods)).map mkSqblId ∧
    ctrRead (applyModsAlloc tasks st mods).1.2 = ctrRead st + countAdds mods ∧
    (applyModsAlloc tasks st mods).1 = applyModifications tasks st mods := by
  induction mods with
  | nil =>
    intro tasks st
    simp [applyModsAlloc, applyModifications, countAdds]
  | cons mod rest ih =>
    intro tasks st
    by_cases hA : mod.type = ModType.ADD
    · have hstep : applyOneMod tasks st mod = addTask tasks st mod := by
        simp [applyOneMod, hA]
      obtain ⟨ih1, ih2, ih3⟩ :=
        ih (tasks ++ [mkAddedTask mod (mkSqblId (ctrRead st + 1))])
          { taskCounter := some (ctrRead st + 1) }
      have hst' : ctrRead { taskCounter := some (ctrRead st + 1) } =
          ctrRead st + 1 := rfl
      simp only [applyModsAlloc, applyModifications, hstep, addTask_eq, hA,
        if_pos, getNextTaskId_eq, countAdds_cons, if_true, hst'] at ih1 ih2 ih3 ⊢
      refine ⟨?_, ?_, ih3⟩
      · rw [ih1]
        have : List.range' (ctrRead st + 1) (1 + countAdds rest) =
            (ctrRead st + 1) :: List.range' (ctrRead st + 1 + 1) (countAdds rest) := by
          rw [Nat.add_comm 1 (countAdds rest)]
          exact List.range'_succ _ _ _
        rw [this]
        rfl
      · rw [ih2]; omega
    · have hstep : (applyOneMod tasks st mod).2 = st :=
        applyOneMod_snd_of_ne tasks st mod hA
      obtain ⟨ih1, ih2, ih3⟩ := ih (applyOneMod tasks st mod).1 (applyOneMod tasks st mod).2
      simp only [applyModsAlloc, applyModifications, hstep, hA, if_false,
        countAdds_cons, List.nil_append] at ih1 ih2 ih3 ⊢
      exact ⟨by simpa using ih1, by simpa using ih2, by simpa using ih3⟩

theorem applyBatchesAlloc_spec (batches : List (List TaskModification)) :
    ∀ (tasks : List Task) (st : CounterState),
    (applyBatchesAlloc tasks st batches).2 =
      (List.range' (ctrRead st + 1) (countAdds batches.flatten)).map mkSqblId ∧
    ctrRead (applyBatchesAlloc tasks st batches).1.2 =
      ctrRead st + countAdds batches.flatten ∧
    (applyBatchesAlloc tasks st batches).1 = applyBatches tasks st batches := by
  induction batches with
  | nil =>
    intro tasks st
    simp [applyBatchesAlloc, applyBatches, countAdds]
  | cons b rest ih =>
    intro tasks st
    obtain ⟨h1, h2, h3⟩ := applyModsAlloc_spec b tasks st
    obtain ⟨g1, g2, g3⟩ :=
      ih (applyModsAlloc tasks st b).1.1 (applyModsAlloc tasks st b).1.2
    simp only [applyBatchesAlloc, applyBatches]
    rw [h2] at g1 g2
    refine ⟨?_, ?_, ?_⟩
    · rw [h1, g1, List.flatten_cons, countAdds_append]
      rw [← List.map_append]
      congr 1
      have := List.range'_append_1 (ctrRead st + 1) (countAdds b)
        (countAdds rest.flatten)
      rw [Nat.add_comm (countAdds rest.flatten) (countAdds b)] at this
      rw [← this]
      congr 2
      omega
    · rw [g2, List.flatten_cons, countAdds_append]; omega
    · rw [g3, h3]

/-- C3: across every sequence of `applyModifications` batches, the instrumented
runner (which agrees with `applyModifications` itself) shows that the `ADD`
items are allocated exactly the ids `SQBL-(c+1), SQBL-(c+2), ...` — one
persisted-counter increment per `ADD`, independent of list length — so the
issued ids follow strictly increasing counter values and no id is ever reused,
even when `DELETE` items intervene. -/
theorem addTask_ids_strictly_increasing (tasks : List Task) (st : CounterState)
    (batches : List (List TaskModification)) :
    (applyBatchesAlloc tasks st batches).1 = applyBatches tasks st batches ∧
    (applyBatchesAlloc tasks st batches).2 =
      (List.range' (ctrRead st + 1) (countAdds batches.flatten)).map mkSqblId ∧
    List.Pairwise (· < ·)
      (List.range' (ctrRead st + 1) (countAdds batches.flatten)) ∧
    (applyBatchesAlloc tasks st batches).2.Nodup ∧
    ctrRead (applyBatchesAlloc tasks st batches).1.2 =
      ctrRead st + countAdds batches.flatten := by
  obtain ⟨h1, h2, h3⟩ := applyBatchesAlloc_spec batches tasks st
  refine ⟨h3, h1, List.pairwise_lt_range' _ _, ?_, h2⟩
  rw [h1]
  exact (List.nodup_range' _ _).map mkSqblId_inj

theorem find?_map_preserving (tasks : List Task) (g : Task → Task)
    (hid : ∀ t, (g t).id = t.id) (tid : String) :
    (tasks.map g).find? (fun t => t.id = tid) =
      (tasks.find? (fun t => t.id = tid)).map g := by
  rw [List.find?_map]
  have hfun : ((fun t : Task => decide (t.id = tid)) ∘ g) =
      (fun t : Task => decide (t.id = tid)) := by
    funext t
    simp [Function.comp, hid t]
  rw [hfun]

theorem modifyTask_map_form (tasks : List Task) (mod : TaskModification)
    (tid : String) (hmod : mod.taskId = some tid) :
    ∃ g : Task → Task, (∀ t, (g t).id = t.id) ∧
      modifyTask tasks mod = tasks.map g ∧
      ∀ t, t.id = tid →
        (g t).status = mod.details.status.getD t.status := by
  refine ⟨fun task =>
    if task.id = tid then
      { task with
        description := match mod.details.newDescription with
          | none => task.description
          | some s => if s = "" then task.description else some s
        title := jsOrString mod.details.newTitle task.title
        priority := mod.details.newPriority.getD task.priority
        status := mod.details.status.getD task.status
        requiresPlan := match mod.details.requiresPlan with
          | some b => some b
          | none => task.requiresPlan
        modificationHistory := task.modificationHistory ++ [mod] }
    else task, ?_, ?_, ?_⟩
  · intro t; dsimp only; split <;> rfl
  · unfold modifyTask; rw [hmod]
  · intro t ht; simp [ht]

theorem modifyTask_sets_status (tasks : List Task) (tid : String) (s : Status)
    (mod : TaskModification) (hmod : mod.taskId = some tid)
    (hs : mod.details.status = some s)
    (hfind : (tasks.find? (fun t => t.id = tid)).isSome) :
    ((modifyTask tasks mod).find? (fun t => t.id = tid)).map Task.status =
      some s := by
  obtain ⟨g, hid, heq, hstat⟩ := modifyTask_map_form tasks mod tid hmod
  obtain ⟨task, htask⟩ := Option.isSome_iff_exists.mp hfind
  have hp : task.id = tid := by
    have := List.find?_some htask
    simpa using this
  rw [heq, find?_map_preserving tasks g hid, htask]
  simp [hstat task hp, hs]

theorem modifyTask_find?_isSome (tasks : List Task) (mod : TaskModification)
    (tid : String) (h : (tasks.find? (fun t => t.id = tid)).isSome) :
    ((modifyTask tasks mod).find? (fun t => t.id = tid)).isSome := by
  cases hmod : mod.taskId with
  | none => unfold modifyTask; rw [hmod]; exact h
  | some tid' =>
    obtain ⟨g, hid, heq, _⟩ := modifyTask_map_form tasks mod tid' hmod
    rw [heq, find?_map_preserving tasks g hid]
    simpa using h

theorem blockTask_find?_isSome (tasks : List Task) (mod : TaskModification)
    (tid : String) (h : (tasks.find? (fun t => t.id = tid)).isSome) :
    ((blockTask tasks mod).find? (fun t => t.id = tid)).isSome := by
  cases hmod : mod.taskId with
  | none => unfold blockTask; rw [hmod]; exact h
  | some tid' =>
    have heq : blockTask tasks mod = tasks.map (fun task =>
        if task.id = tid' then
          { task with
            blockedBy := mod.details.blockedBy
            modificationHistory := task.modificationHistory ++ [mod] }
        else task) := by
      unfold blockTask; rw [hmod]
    have hid : ∀ t : Task, ((fun task =>
        if task.id = tid' then
          { task with
            blockedBy := mod.details.blockedBy
            modificationHistory := task.modificationHistory ++ [mod] }
        else task) t).id = t.id := by
      intro t; dsimp only; split <;> rfl
    rw [heq, find?_map_preserving tasks _ hid]
    simpa using h

theorem addTask_find?_isSome (tasks : List Task) (st : CounterState)
    (mod : TaskModification) (tid : String)
    (h : (tasks.find? (fun t => t.id = tid)).isSome) :
    (((addTask tasks st mod).1).find? (fun t => t.id = tid)).isSome := by
  rw [addTask_eq]
  obtain ⟨task, htask⟩ := Option.isSome_iff_exists.mp h
  rw [List.find?_append, htask]
  rfl

theorem applyModifications_keeps_found (mods : List TaskModification)
    (hmods : ∀ m ∈ mods, m.type ≠ ModType.DELETE ∧ m.type ≠ ModType.SPLIT) :
    ∀ (tasks : List Task) (st : CounterState) (tid : String),
    (tasks.find? (fun t => t.id = tid)).isSome →
    (((applyModifications tasks st mods).1).find? (fun t => t.id = tid)).isSome := by
  induction mods with
  | nil => intro tasks st tid h; exact h
  | cons mod rest ih =>
    intro tasks st tid h
    have hmod := hmods mod (by simp)
    have hrest : ∀ m ∈ rest, m.type ≠ ModType.DELETE ∧ m.type ≠ ModType.SPLIT :=
      fun m hm => hmods m (by simp [hm])
    have hstep : (((applyOneMod tasks st mod).1).find? (fun t => t.id = tid)).isSome := by
      cases htype : mod.type
      case ADD => simpa [applyOneMod, htype] using addTask_find?_isSome tasks st mod tid h
      case DELETE => exact absurd htype hmod.1
      case MODIFY => simpa [applyOneMod, htype] using modifyTask_find?_isSome tasks mod tid h
      case BLOCK => simpa [applyOneMod, htype] using blockTask_find?_isSome tasks mod tid h
      case SPLIT => exact absurd htype hmod.2
      case MERGE => simpa [applyOneMod, htype, mergeTasks] using h
    have := ih hrest (applyOneMod tasks st mod).1 (applyOneMod tasks st mod).2 tid hstep
    simpa [applyModifications] using this

theorem rollback_batch_sets_inProgress (tasks : List Task) (st : CounterState)
    (tid : String) (h : (tasks.find? (fun t => t.id = tid)).isSome) :
    (((applyModifications tasks st [rollbackMod tid]).1).find?
        (fun t => t.id = tid)).map Task.status = some Status.inProgress := by
  have hred : (applyModifications tasks st [rollbackMod tid]).1 =
      modifyTask tasks (rollbackMod tid) := rfl
  rw [hred]
  exact modifyTask_sets_status tasks tid Status.inProgress (rollbackMod tid)
    rfl rfl h

/-- C5: if any step of the `submit_for_review` flow throws after the flow
started on a task that was `in-progress`, the `catch` handler sets the task
back to `in-progress` before the error is reported, so no error path leaves it
in status `review`. -/
theorem submitForReview_error_rolls_back (tasks : List Task)
    (st : CounterState) (taskId : String) (env : SubmitEnv) (task : Task)
    (hfind : tasks.find? (fun t => t.id = taskId) = some task)
    (hstatus : task.status = Status.inProgress)
    (hthrow : env.throwAt.isSome) :
    (submitForReview tasks st taskId env).2 = SubmitOutcome.errored ∧
    (((submitForReview tasks st taskId env).1.1).find?
        (fun t => t.id = taskId)).map Task.status = some Status.inProgress := by
  have hsome : (tasks.find? (fun t => t.id = taskId)).isSome := by
    rw [hfind]; rfl
  obtain ⟨tp, htp⟩ := Option.isSome_iff_exists.mp hthrow
  cases tp with
  | beforeReview =>
    simp only [submitForReview, hfind, hstatus, htp]
    refine ⟨by simp, ?_⟩
    simpa using rollback_batch_sets_inProgress tasks st taskId hsome
  | afterConsult =>
    simp only [submitForReview, hfind, hstatus, htp]
    have hkeep := applyModifications_keeps_found [reviewMod taskId]
      (by intro m hm; simp at hm; subst hm
          exact ⟨by simp [reviewMod], by simp [reviewMod]⟩)
      tasks st taskId hsome
    refine ⟨by simp, ?_⟩
    simpa using rollback_batch_sets_inProgress
      (applyModifications tasks st [reviewMod taskId]).1
      (applyModifications tasks st [reviewMod taskId]).2 taskId hkeep
  | afterFinal =>
    simp only [submitForReview, hfind, hstatus, htp]
    have hkeep1 := applyModifications_keeps_found [reviewMod taskId]
      (by intro m hm; simp at hm; subst hm
          exact ⟨by simp [reviewMod], by simp [reviewMod]⟩)
      tasks st taskId hsome
    by_cases happ : env.pmApproval = Approval.approved
    · have hkeep2 := applyModifications_keeps_found [approveMod taskId]
        (by intro m hm; simp at hm; subst hm
            exact ⟨by simp [approveMod], by simp [approveMod]⟩)
        (applyModifications tasks st [reviewMod taskId]).1
        (applyModifications tasks st [reviewMod taskId]).2 taskId hkeep1
      have hkeep3 := applyModifications_keeps_found
        (env.pmSuggestedTitles.map pmSuggestedMod)
        (by intro m hm
            simp only [List.mem_map] at hm
            obtain ⟨x, _, hx⟩ := hm
            subst hx
            exact ⟨by simp [pmSuggestedMod], by simp [pmSuggestedMod]⟩)
        (applyModifications (applyModifications tasks st [reviewMod taskId]).1
          (applyModifications tasks st [reviewMod taskId]).2 [approveMod taskId]).1
        (applyModifications (applyModifications tasks st [reviewMod taskId]).1
          (applyModifications tasks st [reviewMod taskId]).2 [approveMod taskId]).2
        taskId hkeep2
      refine ⟨by simp [happ], ?_⟩
      simpa [happ] using rollback_batch_sets_inProgress _ _ taskId hkeep3
    · have hkeep2 := applyModifications_keeps_found [changesMod taskId]
        (by intro m hm; simp at hm; subst hm
            exact ⟨by simp [changesMod], by simp [changesMod]⟩)
        (applyModifications tasks st [reviewMod taskId]).1
        (applyModifications tasks st [reviewMod taskId]).2 taskId hkeep1
      refine ⟨by simp [happ], ?_⟩
      simpa [happ] using rollback_batch_sets_inProgress _ _ taskId hkeep2

/-- Witness for C5: a concrete in-progress task, with the flow throwing right
after the PM consultation, ends the flow errored and back `in-progress`. -/
theorem submitForReview_error_rolls_back_witness :
    (submitForReview
        [{ id := "SQBL-4", title := "W", status := Status.inProgress,
           priority := Priority.low, dependencies := [] }] {} "SQBL-4"
        { throwAt := some ThrowPoint.afterConsult }).2 = SubmitOutcome.errored ∧
    ((submitForReview
        [{ id := "SQBL-4", title := "W", status := Status.inProgress,
           priority := Priority.low, dependencies := [] }] {} "SQBL-4"
        { throwAt := some ThrowPoint.afterConsult }).1.1.find?
        (fun t => t.id = "SQBL-4")).map Task.status = some Status.inProgress :=
  submitForReview_error_rolls_back
    [{ id := "SQBL-4", title := "W", status := Status.inProgress,
       priority := Priority.low, dependencies := [] }] {} "SQBL-4"
    { throwAt := some ThrowPoint.afterConsult }
    { id := "SQBL-4", title := "W", status := Status.inProgress,
      priority := Priority.low, dependencies := [] }
    (by decide) rfl rfl

theorem insertEvent_keys (gs : List (String × List PMActivityEvent))
    (k : String) (e : PMActivityEvent) :
    (insertEvent gs k e).map Prod.fst =
      if k ∈ gs.map Prod.fst then gs.map Prod.fst
      else gs.map Prod.fst ++ [k] := by
  unfold insertEvent
  by_cases h : gs.any (fun g => g.1 = k)
  · have hmem : k ∈ gs.map Prod.fst := by
      simp only [List.any_eq_true, decide_eq_true_eq] at h
      obtain ⟨g, hg, hk⟩ := h
      exact List.mem_map.mpr ⟨g, hg, hk⟩
    rw [if_pos h, if_pos hmem, List.map_map]
    refine List.map_congr_left fun g _ => ?_
    by_cases hgk : g.1 = k <;> simp [hgk]
  · have hmem : k ∉ gs.map Prod.fst := by
      intro hc
      obtain ⟨g, hg, hk⟩ := List.mem_map.mp hc
      exact h (List.any_eq_true.mpr ⟨g, hg, by simpa using hk⟩)
    rw [if_neg h, if_neg hmem, List.map_append]
    rfl

theorem parseSessionsFromFile_spec (lines : List (Option PMActivityEvent)) :
    ((parseSessionsFromFile lines).map Prod.fst).Nodup ∧
    (∀ g ∈ parseSessionsFromFile lines,
      g.2 = (lines.filterMap id).filter (fun e => sessionKey e = g.1)) ∧
    (∀ e ∈ lines.filterMap id,
      sessionKey e ∈ (parseSessionsFromFile lines).map Prod.fst) := by
  induction lines using List.reverseRecOn with
  | nil => simp [parseSessionsFromFile]
  | append_singleton xs l ih =>
    obtain ⟨ih1, ih2, ih3⟩ := ih
    cases l with
    | none =>
      have hfold : parseSessionsFromFile (xs ++ [none]) =
          parseSessionsFromFile xs := by
        unfold parseSessionsFromFile
        rw [List.foldl_append]
        rfl
      have hflt : (xs ++ [(none : Option PMActivityEvent)]).filterMap id =
          xs.filterMap id := by
        simp [List.filterMap_append]
      rw [hfold, hflt]
      exact ⟨ih1, ih2, ih3⟩
    | some e =>
      have hfold : parseSessionsFromFile (xs ++ [some e]) =
          insertEvent (parseSessionsFromFile xs) (sessionKey e) e := by
        unfold parseSessionsFromFile
        rw [List.foldl_append]
        rfl
      have hflt : (xs ++ [some e]).filterMap id = xs.filterMap id ++ [e] := by
        simp [List.filterMap_append]
      simp only [hfold, hflt]
      refine ⟨?_, ?_, ?_⟩
      · rw [insertEvent_keys]
        by_cases hk : sessionKey e ∈ (parseSessionsFromFile xs).map Prod.fst
        · rw [if_pos hk]; exact ih1
        · rw [if_neg hk]
          simp [List.nodup_append, ih1, hk]
      · intro g hg
        unfold insertEvent at hg
        by_cases h : (parseSessionsFromFile xs).any (fun g => g.1 = sessionKey e)
        · rw [if_pos h] at hg
          obtain ⟨g0, hg0, hup⟩ := List.mem_map.mp hg
          by_cases hgk : g0.1 = sessionKey e
          · rw [if_pos hgk] at hup
            subst hup
            simp only [List.filter_append]
            rw [← ih2 g0 hg0]
            simp [hgk]
          · rw [if_neg hgk] at hup
            subst hup
            simp only [List.filter_append]
            rw [← ih2 g0 hg0]
            simp [show sessionKey e ≠ g0.1 from fun hc => hgk hc.symm]
        · rw [if_neg h] at hg
          rcases List.mem_append.mp hg with hg' | hg'
          · have hne : g.1 ≠ sessionKey e := by
              intro hc
              exact h (List.any_eq_true.mpr ⟨g, hg', by simpa using hc⟩)
            simp only [List.filter_append]
            rw [← ih2 g hg']
            simp [show sessionKey e ≠ g.1 from fun hc => hne hc.symm]
          · have hg'' : g = (sessionKey e, [e]) := by simpa using hg'
            subst hg''
            simp only [List.filter_append]
            have hnil : (xs.filterMap id).filter
                (fun x => sessionKey x = sessionKey e) = [] := by
              refine List.filter_eq_nil_iff.mpr fun x hx => ?_
              intro hc
              have := ih3 x hx
              rw [of_decide_eq_true hc] at this
              obtain ⟨g0, hg0, hk0⟩ := List.mem_map.mp this
              exact h (List.any_eq_true.mpr ⟨g0, hg0, by simpa using hk0⟩)
            rw [hnil]
            simp
      · intro x hx
        rw [insertEvent_keys]
        rcases List.mem_append.mp hx with hx' | hx'
        · have := ih3 x hx'
          by_cases hk : sessionKey e ∈ (parseSessionsFromFile xs).map Prod.fst
          · rw [if_pos hk]; exact this
          · rw [if_neg hk]; exact List.mem_append_left _ this
        · have hxe : x = e := by simpa using hx'
          subst hxe
          by_cases hk : sessionKey x ∈ (parseSessionsFromFile xs).map Prod.fst
          · rw [if_pos hk]; exact hk
          · rw [if_neg hk]; simp

theorem flatten_filter_key (L : List (String × List PMActivityEvent))
    (hL : ∀ g ∈ L, ∀ e ∈ g.2, sessionKey e = g.1) (k : String) :
    ((L.map Prod.snd).flatten).filter (fun e => sessionKey e = k) =
      ((L.filter (fun g => g.1 = k)).map Prod.snd).flatten := by
  induction L with
  | nil => rfl
  | cons g rest ih =>
    have hg := hL g (by simp)
    have hrest : ∀ g' ∈ rest, ∀ e ∈ g'.2, sessionKey e = g'.1 :=
      fun g' hg' => hL g' (by simp [hg'])
    by_cases hk : g.1 = k
    · have hkeep : g.2.filter (fun e => sessionKey e = k) = g.2 := by
        refine List.filter_eq_self.mpr fun e he => ?_
        simp [hg e he, hk]
      simp [List.filter_cons, hk, hkeep, ih hrest]
    · have hdrop : g.2.filter (fun e => sessionKey e = k) = [] := by
        refine List.filter_eq_nil_iff.mpr fun e he hc => ?_
        refine hk ?_
        rw [← hg e he]
        exact of_decide_eq_true hc
      simp [List.filter_cons, hk, hdrop, ih hrest]

theorem filter_key_unique {β : Type} (L : List (String × β))
    (hnd : (L.map Prod.fst).Nodup) (g : String × β) (hg : g ∈ L) :
    L.filter (fun x => x.1 = g.1) = [g] := by
  induction L with
  | nil => cases hg
  | cons a rest ih =>
    simp only [List.map_cons, List.nodup_cons] at hnd
    rcases List.mem_cons.mp hg with hga | hga
    · subst hga
      have hnil : rest.filter (fun x => x.1 = g.1) = [] := by
        refine List.filter_eq_nil_iff.mpr fun x hx hc => ?_
        exact hnd.1 (of_decide_eq_true hc ▸ List.mem_map.mpr ⟨x, hx, rfl⟩)
      simp [List.filter_cons, hnil]
    · have hdec : (decide (a.1 = g.1)) = false := by
        refine decide_eq_false fun hc => ?_
        exact hnd.1 (hc ▸ List.mem_map.mpr ⟨g, hga, rfl⟩)
      simp [List.filter_cons, hdec, ih hnd.2 hga]

/-- C4: when rotation runs, the rewritten structured log is exactly the events
of the last `MAX_SESSIONS_TO_KEEP = 5` sessions in the first-seen session
order (grouping key `sessionId`, `"unknown"` when absent or empty); it
mentions at most 5 distinct session keys, and restricting the rewritten log to
any retained session reproduces that session's events in their original
order. -/
theorem rotateLogs_retains_last_sessions (lines : List (Option PMActivityEvent)) :
    ((parseSessionsFromFile lines).drop
        ((parseSessionsFromFile lines).length - maxSessionsToKeep)).length ≤
      maxSessionsToKeep ∧
    rotateLogs lines =
      (((parseSessionsFromFile lines).drop
          ((parseSessionsFromFile lines).length - maxSessionsToKeep)).map
            Prod.snd).flatten ∧
    ((rotateLogs lines).map sessionKey).toFinset.card ≤ maxSessionsToKeep ∧
    ∀ g ∈ (parseSessionsFromFile lines).drop
        ((parseSessionsFromFile lines).length - maxSessionsToKeep),
      (rotateLogs lines).filter (fun e => sessionKey e = g.1) =
        (lines.filterMap id).filter (fun e => sessionKey e = g.1) := by
  obtain ⟨hnd, hval, _⟩ := parseSessionsFromFile_spec lines
  set sessions := parseSessionsFromFile lines with hsess
  set kept := sessions.drop (sessions.length - maxSessionsToKeep) with hkept
  have hlen : kept.length ≤ maxSessionsToKeep := by
    rw [hkept, List.length_drop]
    omega
  have hflat : rotateLogs lines = (kept.map Prod.snd).flatten := by
    unfold rotateLogs
    by_cases hempty : (sessions.drop (sessions.length - maxSessionsToKeep)).isEmpty
    · rw [← hsess]
      simp only [hempty, if_pos]
      rw [List.isEmpty_iff] at hempty
      rw [← hkept] at hempty
      simp [hempty]
    · rw [← hsess]
      simp [hempty, ← hkept]
  have hkeptsub : ∀ g ∈ kept, g ∈ sessions := fun g hg =>
    (List.drop_sublist _ _).subset hg
  have hkeptval : ∀ g ∈ kept, ∀ e ∈ g.2, sessionKey e = g.1 := by
    intro g hg e he
    have hge := hval g (hkeptsub g hg)
    rw [hge] at he
    have h' := List.of_mem_filter he
    exact of_decide_eq_true (by simpa using h')
  have hkeptnd : (kept.map Prod.fst).Nodup := by
    refine List.Pairwise.sublist ?_ hnd
    exact (List.drop_sublist _ _).map Prod.fst
  refine ⟨hlen, hflat, ?_, ?_⟩
  · have hsubkeys : ∀ k ∈ (rotateLogs lines).map sessionKey,
        k ∈ kept.map Prod.fst := by
      intro k hk
      obtain ⟨e, he, hke⟩ := List.mem_map.mp hk
      rw [hflat] at he
      obtain ⟨evs, hevs, hee⟩ := List.mem_flatten.mp he
      obtain ⟨g, hg, hge⟩ := List.mem_map.mp hevs
      subst hge
      rw [← hke, hkeptval g hg e hee]
      exact List.mem_map.mpr ⟨g, hg, rfl⟩
    calc ((rotateLogs lines).map sessionKey).toFinset.card
        ≤ (kept.map Prod.fst).toFinset.card := by
          refine Finset.card_le_card ?_
          intro k hk
          rw [List.mem_toFinset] at hk ⊢
          exact hsubkeys k hk
      _ ≤ (kept.map Prod.fst).length := List.toFinset_card_le _
      _ = kept.length := List.length_map _ _
      _ ≤ maxSessionsToKeep := hlen
  · intro g hg
    rw [hflat, flatten_filter_key kept hkeptval g.1,
      filter_key_unique kept hkeptnd g hg]
    simpa using hval g (hkeptsub g hg)

/-- Witness for C4 at a concrete six-session log: session `s2` is retained and
its events are reproduced in order by the rewritten log. -/
theorem rotateLogs_retains_last_sessions_witness :
    ("s2", [c4Ev "s2"]) ∈ (parseSessionsFromFile c4Lines).drop
        ((parseSessionsFromFile c4Lines).length - maxSessionsToKeep) ∧
    (rotateLogs c4Lines).filter (fun e => sessionKey e = "s2") =
      (c4Lines.filterMap id).filter (fun e => sessionKey e = "s2") := by
  have hmem : ("s2", [c4Ev "s2"]) ∈ (parseSessionsFromFile c4Lines).drop
      ((parseSessionsFromFile c4Lines).length - maxSessionsToKeep) := by decide
  refine ⟨hmem, ?_⟩
  simpa using (rotateLogs_retains_last_sessions c4Lines).2.2.2
    ("s2", [c4Ev "s2"]) hmem

theorem getD_set_self' (l : List α) (i : Nat) (h : i < l.length) (a d : α) :
    (l.set i a).getD i d = a := by
  simp [List.getD_eq_getElem?_getD, List.getElem?_set_self h]

theorem getD_set_ne' (l : List α) {i j : Nat} (h : i ≠ j) (a d : α) :
    (l.set i a).getD j d = l.getD j d := by
  simp [List.getD_eq_getElem?_getD, List.getElem?_set_ne h]

theorem toArray_nonfull (b : CircularBuffer α) (hlt : b.size < b.capacity) :
    b.toArray = (List.range b.size).map (fun i => b.buffer.getD i none) := by
  unfold CircularBuffer.toArray
  by_cases h0 : b.size = 0
  · simp [h0]
  · rw [if_neg h0, if_pos hlt]

theorem toArray_full (b : CircularBuffer α) (h0 : 0 < b.size)
    (hfull : ¬b.size < b.capacity) :
    b.toArray = (List.range b.capacity).map
      (fun i => b.buffer.getD ((b.writeIndex + i) % b.capacity) none) := by
  unfold CircularBuffer.toArray
  rw [if_neg (by omega), if_neg hfull]

theorem toArray_length (C : Nat) (hC : 0 < C) (b : CircularBuffer α)
    (h : bufInv C b) : b.toArray.length = b.size := by
  obtain ⟨hcap, hlen, hsz, hw, hnf⟩ := h
  by_cases hlt : b.size < b.capacity
  · rw [toArray_nonfull b hlt]; simp
  · have h0 : 0 < b.size := by omega
    rw [toArray_full b h0 hlt]
    simp
    omega

theorem bufInv_empty (C : Nat) (hC : 0 < C) :
    bufInv C (CircularBuffer.empty α C) := by
  exact ⟨rfl, by simp [CircularBuffer.empty], by simp [CircularBuffer.empty],
    hC, fun _ => rfl⟩

theorem bufInv_push (C : Nat) (hC : 0 < C) (b : CircularBuffer α)
    (h : bufInv C b) (x : α) : bufInv C (b.push x) := by
  obtain ⟨hcap, hlen, hsz, hw, hnf⟩ := h
  unfold CircularBuffer.push
  refine ⟨hcap, by simpa using hlen, ?_, ?_, ?_⟩
  · dsimp only; split <;> omega
  · dsimp only; rw [hcap]; exact Nat.mod_lt _ hC
  · dsimp only
    intro hlt
    by_cases hslt : b.size < b.capacity
    · rw [if_pos hslt] at hlt ⊢
      have hwi : b.writeIndex = b.size := hnf (by omega)
      rw [hwi, hcap] at *
      exact Nat.mod_eq_of_lt (by omega)
    · rw [if_neg hslt] at hlt
      omega

theorem toArray_push (C : Nat) (hC : 0 < C) (b : CircularBuffer α)
    (h : bufInv C b) (x : α) :
    (b.push x).toArray =
      (b.toArray ++ [some x]).drop ((b.toArray ++ [some x]).length - C) := by
  obtain ⟨hcap, hlen, hsz, hw, hnf⟩ := h
  have hta := toArray_length C hC b ⟨hcap, hlen, hsz, hw, hnf⟩
  by_cases hslt : b.size < b.capacity
  · -- not yet full: the pushed item is appended and nothing is dropped
    have hwi : b.writeIndex = b.size := hnf (by omega)
    have hdrop0 : (b.toArray ++ [some x]).length - C = 0 := by
      simp [hta]; omega
    rw [hdrop0, List.drop_zero]
    have hbta := toArray_nonfull b hslt
    have hpushed : (b.push x).buffer = b.buffer.set b.size (some x) := by
      unfold CircularBuffer.push; rw [hwi]
    have hpsize : (b.push x).size = b.size + 1 := by
      unfold CircularBuffer.push; dsimp only; rw [if_pos hslt]
    have hsame : ∀ i, i < b.size →
        (b.push x).buffer.getD i none = b.buffer.getD i none := by
      intro i hi
      rw [hpushed]
      exact getD_set_ne' b.buffer (by omega) (some x) none
    have hnew : (b.push x).buffer.getD b.size none = some x := by
      rw [hpushed]
      exact getD_set_self' b.buffer b.size (by omega) (some x) none
    have hcore : (List.range (b.size + 1)).map
        (fun i => (b.push x).buffer.getD i none) = b.toArray ++ [some x] := by
      rw [List.range_succ, List.map_append]
      congr 1
      · rw [hbta]
        exact List.map_congr_left fun i hi =>
          hsame i (List.mem_range.mp hi)
      · simpa using hnew
    by_cases hfull : b.size + 1 < b.capacity
    · rw [toArray_nonfull (b.push x) (by rw [hpsize]; exact hfull), hpsize]
      exact hcore
    · -- the push fills the buffer exactly
      have hcap1 : b.capacity = b.size + 1 := by omega
      have hwi' : (b.push x).writeIndex = 0 := by
        unfold CircularBuffer.push
        dsimp only
        rw [hwi, hcap1, Nat.mod_self]
      rw [toArray_full (b.push x) (by rw [hpsize]; omega)
        (by unfold CircularBuffer.push; dsimp only; rw [if_pos hslt]; omega)]
      have hpcap : (b.push x).capacity = b.capacity := rfl
      rw [hpcap, hwi', hcap1]
      rw [← hcore]
      exact List.map_congr_left fun i hi => by
        rw [Nat.zero_add, Nat.mod_eq_of_lt (List.mem_range.mp hi)]
  · -- full: the oldest slot is overwritten and dropped
    have hsize : b.size = C := by omega
    have h0 : 0 < b.size := by omega
    have hbta := toArray_full b h0 hslt
    have hpsize : (b.push x).size = b.size := by
      unfold CircularBuffer.push; dsimp only; rw [if_neg hslt]
    have hpushed : (b.push x).buffer = b.buffer.set b.writeIndex (some x) := rfl
    have hpw : (b.push x).writeIndex = (b.writeIndex + 1) % b.capacity := rfl
    have hdrop1 : (b.toArray ++ [some x]).length - C = 1 := by
      simp [hta]; omega
    rw [hdrop1]
    rw [toArray_full (b.push x) (by omega)
      (by rw [hpsize]; exact hslt)]
    have hpcap : (b.push x).capacity = b.capacity := rfl
    rw [hpcap, hpw, hpushed]
    obtain ⟨c, hc⟩ : ∃ c, b.capacity = c + 1 := ⟨b.capacity - 1, by omega⟩
    have hdropappend : (b.toArray ++ [some x]).drop 1 =
        b.toArray.drop 1 ++ [some x] :=
      List.drop_append_of_le_length (by rw [hta]; omega)
    rw [hdropappend, hbta, hc]
    conv_rhs => rw [List.range_succ_eq_map]
    simp only [List.map_cons, List.drop_one, List.tail_cons, List.map_map]
    conv_lhs => rw [List.range_succ]
    simp only [List.map_append, List.map_cons, List.map_nil]
    congr 1
    · refine List.map_congr_left fun i hi => ?_
      have hic : i < c := List.mem_range.mp hi
      rw [Nat.mod_add_mod]
      have hidx : (b.writeIndex + 1 + i) % (c + 1) =
          (b.writeIndex + (i + 1)) % (c + 1) := by
        congr 1
        omega
      rw [hidx]
      have hne : (b.writeIndex + (i + 1)) % (c + 1) ≠ b.writeIndex := by
        intro hy
        by_cases hlt2 : b.writeIndex + (i + 1) < c + 1
        · rw [Nat.mod_eq_of_lt hlt2] at hy
          omega
        · rw [Nat.mod_eq_sub_mod (by omega),
            Nat.mod_eq_of_lt (by omega)] at hy
          omega
      rw [getD_set_ne' b.buffer (fun hy => hne hy.symm) (some x) none]
      simp [Function.comp]
    · rw [Nat.mod_add_mod]
      have hidx : (b.writeIndex + 1 + c) % (c + 1) = b.writeIndex := by
        have heq : b.writeIndex + 1 + c = b.writeIndex + (c + 1) := by omega
        rw [heq, Nat.add_mod_right]
        exact Nat.mod_eq_of_lt (by omega)
      rw [hidx]
      simpa using getD_set_self' b.buffer b.writeIndex (by omega) (some x) none

theorem pushAll_spec (C : Nat) (hC : 0 < C) (xs : List α) :
    bufInv C (CircularBuffer.pushAll (CircularBuffer.empty α C) xs) ∧
    (CircularBuffer.pushAll (CircularBuffer.empty α C) xs).toArray =
      (xs.map some).drop (xs.length - C) := by
  induction xs using List.reverseRecOn with
  | nil =>
    refine ⟨bufInv_empty C hC, ?_⟩
    simp [CircularBuffer.pushAll, CircularBuffer.empty, CircularBuffer.toArray]
  | append_singleton xs x ih =>
    obtain ⟨hinv, hta⟩ := ih
    have hstep : CircularBuffer.pushAll (CircularBuffer.empty α C) (xs ++ [x]) =
        (CircularBuffer.pushAll (CircularBuffer.empty α C) xs).push x := by
      unfold CircularBuffer.pushAll
      rw [List.foldl_append]
      rfl
    set b := CircularBuffer.pushAll (CircularBuffer.empty α C) xs with hb
    refine ⟨hstep ▸ bufInv_push C hC b hinv x, ?_⟩
    rw [hstep, toArray_push C hC b hinv x, hta]
    have hlen1 : ((xs.map some).drop (xs.length - C)).length =
        xs.length - (xs.length - C) := by simp
    by_cases hm : xs.length < C
    · have h1 : xs.length - C = 0 := by omega
      have h2 : ((xs.map some).drop (xs.length - C) ++ [some x]).length - C = 0 := by
        simp; omega
      have h3 : (xs ++ [x]).length - C = 0 := by simp; omega
      rw [h2, h3, h1, List.drop_zero, List.drop_zero, List.drop_zero]
      simp
    · have h2 : ((xs.map some).drop (xs.length - C) ++ [some x]).length - C = 1 := by
        simp; omega
      rw [h2]
      have h4 : ((xs.map some).drop (xs.length - C) ++ [some x]).drop 1 =
          ((xs.map some).drop (xs.length - C)).drop 1 ++ [some x] :=
        List.drop_append_of_le_length (by simp; omega)
      rw [h4, List.drop_drop]
      have h5 : (xs ++ [x]).map some = xs.map some ++ [some x] := by simp
      rw [h5]
      have h6 : (xs.map some ++ [some x]).drop ((xs ++ [x]).length - C) =
          (xs.map some).drop ((xs ++ [x]).length - C) ++ [some x] :=
        List.drop_append_of_le_length (by simp; omega)
      rw [h6]
      have h7 : xs.length - C + 1 = (xs ++ [x]).length - C := by
        simp
        omega
      rw [h7]

/-- C8: for every capacity `C > 0` and every sequence of `M > C` pushed items,
`toArray` returns exactly `C` entries: the last `C` pushed items in push order
(each slot read being a filled `some`), regardless of the internal write
position. -/
theorem toArray_last_capacity (α : Type) (C : Nat) (xs : List α) (hC : 0 < C)
    (hM : C < xs.length) :
    (CircularBuffer.pushAll (CircularBuffer.empty α C) xs).toArray.length = C ∧
    (CircularBuffer.pushAll (CircularBuffer.empty α C) xs).toArray =
      (xs.drop (xs.length - C)).map some := by
  obtain ⟨hinv, hta⟩ := pushAll_spec C hC xs
  refine ⟨?_, ?_⟩
  · rw [hta]; simp; omega
  · rw [hta, List.map_drop]

/-- Witness for C8 with capacity 2 and three pushed items. -/
theorem toArray_last_capacity_witness :
    (0 < 2 ∧ 2 < [10, 20, 30].length) ∧
    (CircularBuffer.pushAll (CircularBuffer.empty Nat 2) [10, 20, 30]).toArray.length = 2 ∧
    (CircularBuffer.pushAll (CircularBuffer.empty Nat 2) [10, 20, 30]).toArray =
      [some 20, some 30] := by
  have h := toArray_last_capacity Nat 2 [10, 20, 30] (by decide) (by decide)
  exact ⟨⟨by decide, by decide⟩, h.1, by rw [h.2]; rfl⟩

/-- C10: on every reachable buffer, `getRecent n` with `n ≥ 1` returns the
`min n size` most recent stored entries in chronological order, while
`getRecent 0` returns every stored entry (JavaScript `slice(-0)` is
`slice(0)`), not the empty list. -/
theorem getRecent_zero_returns_all (α : Type) (C : Nat) (xs : List α) (n : Nat)
    (hC : 0 < C) :
    (1 ≤ n →
      (CircularBuffer.pushAll (CircularBuffer.empty α C) xs).getRecent n =
        ((xs.map some).drop (xs.length - C)).drop
          ((xs.length - (xs.length - C)) - n) ∧
      ((CircularBuffer.pushAll (CircularBuffer.empty α C) xs).getRecent n).length =
        min n (CircularBuffer.pushAll (CircularBuffer.empty α C) xs).toArray.length) ∧
    (CircularBuffer.pushAll (CircularBuffer.empty α C) xs).getRecent 0 =
      (CircularBuffer.pushAll (CircularBuffer.empty α C) xs).toArray := by
  obtain ⟨hinv, hta⟩ := pushAll_spec C hC xs
  refine ⟨fun hn => ?_, ?_⟩
  · have hne : n ≠ 0 := by omega
    constructor
    · unfold CircularBuffer.getRecent jsSliceNeg
      rw [if_neg hne, hta]
      congr 1
      simp
    · unfold CircularBuffer.getRecent jsSliceNeg
      rw [if_neg hne]
      simp
      omega
  · unfold CircularBuffer.getRecent jsSliceNeg
    rw [if_pos rfl]

/-- Witness for C10: with capacity 2 and three pushes, `getRecent 1` returns
the single most recent entry while `getRecent 0` returns both stored
entries. -/
theorem getRecent_zero_returns_all_witness :
    (CircularBuffer.pushAll (CircularBuffer.empty Nat 2) [10, 20, 30]).getRecent 1 =
      [some 30] ∧
    (CircularBuffer.pushAll (CircularBuffer.empty Nat 2) [10, 20, 30]).getRecent 0 =
      [some 20, some 30] := by
  have h := getRecent_zero_returns_all Nat 2 [10, 20, 30] 1 (by decide)
  have h1 := (h.1 (by decide)).1
  refine ⟨by rw [h1]; rfl, ?_⟩
  have h0 := h.2
  rw [h0]
  rfl

end Squabble
